import Mathlib

/-!
Verification of the spatialization engine of `src/spatialize.js`.

Numbers are modelled as real numbers (the idealization of the JavaScript
float arithmetic the source uses), lists model JavaScript arrays, and
`Option ℝ` models array entries that may be `null` (the non-spatial
channel marker).  Fallible constructors are modelled with `Except`.
All definitions are direct transcriptions of the corresponding
JavaScript functions, keeping their names.
-/

namespace Galaxy

/-- A 2-D coordinate pair, as used for listener and voice positions. -/
structure Coords where
  x : ℝ
  y : ℝ

/-- Truncation toward zero, the rounding used by the JavaScript `%`
remainder operator on numbers. -/
noncomputable def jsTrunc (x : ℝ) : ℤ := if 0 ≤ x then ⌊x⌋ else ⌈x⌉

/-- The JavaScript remainder operator `n % d` on (finite, nonzero-divisor)
numbers: `n - d * trunc (n / d)`, so the result keeps the sign of `n`. -/
noncomputable def jsRem (n d : ℝ) : ℝ := n - d * jsTrunc (n / d)

/-- Source `mod(n, d) = ((n % d) + d) % d` — modulo that always has the
same sign as `d`. -/
noncomputable def mod (n d : ℝ) : ℝ := jsRem (jsRem n d + d) d

theorem jsTrunc_of_nonneg {x : ℝ} (h : 0 ≤ x) : jsTrunc x = ⌊x⌋ := by
  simp [jsTrunc, h]

theorem jsTrunc_of_neg {x : ℝ} (h : x < 0) : jsTrunc x = ⌈x⌉ := by
  simp [jsTrunc, not_le.mpr h]

/-- On an argument already in `[0, d)` the JavaScript remainder is the
identity. -/
theorem jsRem_eq_self {x d : ℝ} (hd : 0 < d) (h0 : 0 ≤ x) (h1 : x < d) :
    jsRem x d = x := by
  have hx : 0 ≤ x / d := div_nonneg h0 hd.le
  have hx1 : x / d < 1 := (div_lt_one hd).mpr h1
  rw [jsRem, jsTrunc_of_nonneg hx, Int.floor_eq_zero_iff.mpr ⟨hx, hx1⟩]
  simp

/-- The double-remainder `mod` of the source equals `d` times the
fractional part of `n / d`, for a positive divisor.  This is the
floor-convention modulo, i.e. the canonicalization into `[0, d)`. -/
theorem mod_eq_fract (n : ℝ) {d : ℝ} (hd : 0 < d) :
    mod n d = d * Int.fract (n / d) := by
  have hdne : d ≠ 0 := ne_of_gt hd
  have key : d * (n / d) = n := by field_simp
  have hfr0 : 0 ≤ Int.fract (n / d) := Int.fract_nonneg _
  have hfr1 : Int.fract (n / d) < 1 := Int.fract_lt_one _
  rcases le_or_lt 0 (n / d) with hq | hq
  · -- nonnegative quotient: the first remainder already lands in [0, d)
    have h1 : jsRem n d = d * Int.fract (n / d) := by
      rw [jsRem, jsTrunc_of_nonneg hq, Int.fract, mul_sub, key]
    rw [mod, h1]
    have harg : (d * Int.fract (n / d) + d) / d = Int.fract (n / d) + 1 := by
      field_simp
      ring
    rw [jsRem, harg, jsTrunc_of_nonneg (by linarith)]
    have hfl : ⌊Int.fract (n / d) + 1⌋ = 1 := by
      rw [show (1:ℝ) = ((1:ℤ):ℝ) by norm_num, Int.floor_add_int, Int.floor_fract]
      norm_num
    rw [hfl]
    push_cast
    ring
  · rcases eq_or_ne (Int.fract (n / d)) 0 with hz | hz
    · -- d divides n exactly
      have hnd : n / d = (⌊n / d⌋ : ℝ) := by
        rw [Int.fract] at hz
        linarith
      have hceil : ⌈n / d⌉ = ⌊n / d⌋ := by
        rw [hnd, Int.ceil_intCast, Int.floor_intCast]
      have h1 : jsRem n d = 0 := by
        rw [jsRem, jsTrunc_of_neg hq, hceil, ← hnd]
        linear_combination -key
      have h2 : jsRem d d = 0 := by
        rw [jsRem, div_self hdne, jsTrunc_of_nonneg (by norm_num : (0:ℝ) ≤ 1)]
        norm_num
      rw [mod, h1, zero_add, h2, hz, mul_zero]
    · -- fractional part positive: the first remainder is d * (fract - 1)
      have hfrpos : 0 < Int.fract (n / d) := lt_of_le_of_ne hfr0 (Ne.symm hz)
      have hceil : ⌈n / d⌉ = ⌊n / d⌋ + 1 := by
        have hlt : (⌊n / d⌋ : ℝ) < n / d := by
          rw [Int.fract] at hfrpos
          linarith
        have hle : ⌈n / d⌉ ≤ ⌊n / d⌋ + 1 := by
          apply Int.ceil_le.mpr
          push_cast
          linarith [Int.lt_floor_add_one (n / d)]
        have hgt : ⌊n / d⌋ < ⌈n / d⌉ := Int.lt_ceil.mpr hlt
        omega
      have h1 : jsRem n d = d * (Int.fract (n / d) - 1) := by
        rw [jsRem, jsTrunc_of_neg hq, hceil, Int.fract]
        push_cast
        linear_combination -key
      have hr0 : 0 ≤ d * Int.fract (n / d) := mul_nonneg hd.le hfr0
      have hr1 : d * Int.fract (n / d) < d := by
        have := mul_lt_mul_of_pos_left hfr1 hd
        simpa using this
      rw [mod, h1, show d * (Int.fract (n / d) - 1) + d = d * Int.fract (n / d)
        by ring, jsRem_eq_self hd hr0 hr1]

/-- `mod n d` is nonnegative for a positive divisor. -/
theorem mod_nonneg (n : ℝ) {d : ℝ} (hd : 0 < d) : 0 ≤ mod n d := by
  rw [mod_eq_fract n hd]
  exact mul_nonneg hd.le (Int.fract_nonneg _)

/-- `mod n d` is below `d` for a positive divisor. -/
theorem mod_lt (n : ℝ) {d : ℝ} (hd : 0 < d) : mod n d < d := by
  rw [mod_eq_fract n hd]
  have := mul_lt_mul_of_pos_left (Int.fract_lt_one (n / d)) hd
  simpa using this

/-- `mod` is the identity on `[0, d)`. -/
theorem mod_eq_self {x d : ℝ} (hd : 0 < d) (h0 : 0 ≤ x) (h1 : x < d) :
    mod x d = x := by
  rw [mod_eq_fract x hd,
    Int.fract_eq_self.mpr ⟨div_nonneg h0 hd.le, (div_lt_one hd).mpr h1⟩]
  field_simp

/-- `mod` shifts a value in `(-d, 0)` up by `d`. -/
theorem mod_of_neg {x d : ℝ} (hd : 0 < d) (h0 : -d < x) (h1 : x < 0) :
    mod x d = x + d := by
  have key : d * (x / d) = x := by field_simp
  rw [mod_eq_fract x hd, Int.fract]
  have hfl : ⌊x / d⌋ = -1 := by
    apply Int.floor_eq_iff.mpr
    constructor
    · push_cast
      rw [neg_le, ← neg_div]
      apply (div_le_one hd).mpr
      linarith
    · push_cast
      norm_num
      exact div_neg_of_neg_of_pos h1 hd
  rw [hfl]
  push_cast
  linear_combination key

/-- Shifting the subtracted angle by one full period does not change
`mod` (the key fact behind 360°-periodicity of the panner). -/
theorem mod_sub_period (t θ : ℝ) {d : ℝ} (hd : 0 < d) :
    mod (t - (θ + d)) d = mod (t - θ) d := by
  rw [mod_eq_fract _ hd, mod_eq_fract _ hd]
  have harg : (t - (θ + d)) / d = (t - θ) / d - (1 : ℤ) := by
    push_cast
    field_simp
    ring
  rw [harg, Int.fract_sub_int]

/-- Two rotated angles agree under `mod` exactly when the original
angles differ by an integer multiple of the divisor. -/
theorem mod_eq_mod_iff {a b d : ℝ} (hd : 0 < d) :
    mod a d = mod b d ↔ ∃ z : ℤ, a - b = z * d := by
  have hdne : d ≠ 0 := ne_of_gt hd
  rw [mod_eq_fract a hd, mod_eq_fract b hd]
  constructor
  · intro h
    have hf : Int.fract (a / d) = Int.fract (b / d) :=
      mul_left_cancel₀ hdne h
    obtain ⟨z, hz⟩ := Int.fract_eq_fract.mp hf
    refine ⟨z, ?_⟩
    have h2 : (a - b) / d = (z : ℝ) := by
      rw [sub_div]
      exact hz
    calc a - b = (a - b) / d * d := by field_simp
    _ = (z : ℝ) * d := by rw [h2]
  · rintro ⟨z, hz⟩
    have hf : Int.fract (a / d) = Int.fract (b / d) := by
      apply Int.fract_eq_fract.mpr
      refine ⟨z, ?_⟩
      rw [← sub_div, hz]
      field_simp
    rw [hf]

/-- Distinct speaker angles (closer than a full turn apart) stay distinct
after rotation and canonicalization by `mod · 360`. -/
theorem mod_sub_ne (θ : ℝ) {u v : ℝ} (huv : u ≠ v) (hclose : |u - v| < 360) :
    mod (u - θ) 360 ≠ mod (v - θ) 360 := by
  intro h
  obtain ⟨z, hz⟩ := (mod_eq_mod_iff (by norm_num : (0:ℝ) < 360)).mp h
  have hz' : u - v = (z : ℝ) * 360 := by linarith
  have h1 : |u - v| = |(z : ℝ)| * 360 := by
    rw [hz', abs_mul]
    norm_num
  have h2 : |(z : ℝ)| < 1 := by
    rw [h1] at hclose
    linarith
  have h3 : z = 0 := by
    have hb := abs_lt.mp h2
    have hlo : (-1 : ℤ) < z := by exact_mod_cast hb.1
    have hhi : z < (1 : ℤ) := by exact_mod_cast hb.2
    omega
  apply huv
  rw [h3] at hz'
  push_cast at hz'
  linarith

/-- One line of `argExtrema`'s loop body for the minimum:
`if (minIdx === null || a[i] < a[minIdx]) minIdx = i;`, carrying the
value alongside the index (JavaScript re-reads it as `a[minIdx]`). -/
noncomputable def minUpdate (mn : Option (ℕ × ℝ)) (i : ℕ) (v : ℝ) :
    Option (ℕ × ℝ) :=
  match mn with
  | none => some (i, v)
  | some (j, w) => if v < w then some (i, v) else some (j, w)

/-- One line of `argExtrema`'s loop body for the maximum:
`if (maxIdx === null || a[i] > a[maxIdx]) maxIdx = i;`. -/
noncomputable def maxUpdate (mx : Option (ℕ × ℝ)) (i : ℕ) (v : ℝ) :
    Option (ℕ × ℝ) :=
  match mx with
  | none => some (i, v)
  | some (j, w) => if w < v then some (i, v) else some (j, w)

/-- The `for` loop of `argExtrema`: walks the array carrying the current
index/value of minimum and maximum (`none` = JavaScript `null` state)
and skips `null` entries via `continue`. -/
noncomputable def exLoop :
    List (Option ℝ) → ℕ → Option (ℕ × ℝ) → Option (ℕ × ℝ) →
    Option (ℕ × ℝ) × Option (ℕ × ℝ)
  | [], _, minSt, maxSt => (minSt, maxSt)
  | none :: rest, i, minSt, maxSt => exLoop rest (i + 1) minSt maxSt
  | some v :: rest, i, minSt, maxSt =>
      exLoop rest (i + 1) (minUpdate minSt i v) (maxUpdate maxSt i v)

/-- Source `argExtrema(a)`: the indices of the minimum and the maximum
values, skipping over any `null`s. -/
noncomputable def argExtrema (a : List (Option ℝ)) : Option ℕ × Option ℕ :=
  ((exLoop a 0 none none).1.map Prod.fst, (exLoop a 0 none none).2.map Prod.fst)

theorem minUpdate_props (mn : Option (ℕ × ℝ)) (i : ℕ) (v : ℝ) :
    minUpdate mn i v ≠ none ∧
    (∀ q : ℕ × ℝ, minUpdate mn i v = some q → q = (i, v) ∨ mn = some q) ∧
    (∀ q : ℕ × ℝ, minUpdate mn i v = some q → q.2 ≤ v) ∧
    (∀ q p : ℕ × ℝ, minUpdate mn i v = some q → mn = some p → q.2 ≤ p.2) := by
  rcases mn with _ | ⟨j₀, w₀⟩
  · refine ⟨by simp [minUpdate], ?_, ?_, ?_⟩
    · intro q hq
      simp [minUpdate] at hq
      exact Or.inl hq.symm
    · intro q hq
      simp [minUpdate] at hq
      rw [← hq]
    · intro q p _ hp
      cases hp
  · by_cases hvw : v < w₀
    · refine ⟨by simp [minUpdate, hvw], ?_, ?_, ?_⟩
      · intro q hq
        simp [minUpdate, hvw] at hq
        exact Or.inl hq.symm
      · intro q hq
        simp [minUpdate, hvw] at hq
        rw [← hq]
      · intro q p hq hp
        simp [minUpdate, hvw] at hq
        cases hp
        rw [← hq]
        exact hvw.le
    · refine ⟨by simp [minUpdate, hvw], ?_, ?_, ?_⟩
      · intro q hq
        simp [minUpdate, hvw] at hq
        exact Or.inr (by rw [hq])
      · intro q hq
        simp [minUpdate, hvw] at hq
        rw [← hq]
        exact not_lt.mp hvw
      · intro q p hq hp
        simp [minUpdate, hvw] at hq
        cases hp
        rw [← hq]

theorem maxUpdate_props (mx : Option (ℕ × ℝ)) (i : ℕ) (v : ℝ) :
    maxUpdate mx i v ≠ none ∧
    (∀ q : ℕ × ℝ, maxUpdate mx i v = some q → q = (i, v) ∨ mx = some q) ∧
    (∀ q : ℕ × ℝ, maxUpdate mx i v = some q → v ≤ q.2) ∧
    (∀ q p : ℕ × ℝ, maxUpdate mx i v = some q → mx = some p → p.2 ≤ q.2) := by
  rcases mx with _ | ⟨j₀, w₀⟩
  · refine ⟨by simp [maxUpdate], ?_, ?_, ?_⟩
    · intro q hq
      simp [maxUpdate] at hq
      exact Or.inl hq.symm
    · intro q hq
      simp [maxUpdate] at hq
      rw [← hq]
    · intro q p _ hp
      cases hp
  · by_cases hvw : w₀ < v
    · refine ⟨by simp [maxUpdate, hvw], ?_, ?_, ?_⟩
      · intro q hq
        simp [maxUpdate, hvw] at hq
        exact Or.inl hq.symm
      · intro q hq
        simp [maxUpdate, hvw] at hq
        rw [← hq]
      · intro q p hq hp
        simp [maxUpdate, hvw] at hq
        cases hp
        rw [← hq]
        exact hvw.le
    · refine ⟨by simp [maxUpdate, hvw], ?_, ?_, ?_⟩
      · intro q hq
        simp [maxUpdate, hvw] at hq
        exact Or.inr (by rw [hq])
      · intro q hq
        simp [maxUpdate, hvw] at hq
        rw [← hq]
        exact not_lt.mp hvw
      · intro q p hq hp
        simp [maxUpdate, hvw] at hq
        cases hp
        rw [← hq]

/-- Loop invariant of `exLoop`, minimum component: the result exists as
soon as the incoming state or the remaining array has anything non-null,
it originates from the incoming state or from an array position, and it
is a lower bound on every non-null value of the array and on the value
of the incoming state. -/
theorem exLoop_min_spec (a : List (Option ℝ)) :
    ∀ (i : ℕ) (mn mx : Option (ℕ × ℝ)),
    (mn ≠ none → (exLoop a i mn mx).1 ≠ none) ∧
    ((∃ x : ℝ, some x ∈ a) → (exLoop a i mn mx).1 ≠ none) ∧
    (∀ j w, (exLoop a i mn mx).1 = some (j, w) →
      (mn = some (j, w) ∨ ∃ k, a.get? k = some (some w) ∧ j = i + k) ∧
      (∀ x : ℝ, some x ∈ a → w ≤ x) ∧
      (∀ p : ℕ × ℝ, mn = some p → w ≤ p.2)) := by
  induction a with
  | nil =>
    intro i mn mx
    refine ⟨fun h => by simpa [exLoop] using h, ?_, ?_⟩
    · rintro ⟨x, hx⟩
      simp at hx
    · intro j w h
      simp [exLoop] at h
      refine ⟨Or.inl h, ?_, ?_⟩
      · intro x hx
        simp at hx
      · intro p hp
        rw [h] at hp
        cases hp
        exact le_refl _
  | cons hd rest ih =>
    intro i mn mx
    cases hd with
    | none =>
      have IH := ih (i + 1) mn mx
      have heq : exLoop (none :: rest) i mn mx = exLoop rest (i + 1) mn mx := rfl
      rw [heq]
      refine ⟨IH.1, ?_, ?_⟩
      · rintro ⟨x, hx⟩
        rw [List.mem_cons] at hx
        rcases hx with h1 | h1
        · exact absurd h1 (by simp)
        · exact IH.2.1 ⟨x, h1⟩
      · intro j w h
        obtain ⟨ho, hb, hm⟩ := IH.2.2 j w h
        refine ⟨?_, ?_, hm⟩
        · rcases ho with h1 | ⟨k, hk, hj⟩
          · exact Or.inl h1
          · exact Or.inr ⟨k + 1, by simpa using hk, by omega⟩
        · intro x hx
          rw [List.mem_cons] at hx
          rcases hx with h1 | h1
          · exact absurd h1 (by simp)
          · exact hb x h1
    | some v =>
      have IH := ih (i + 1) (minUpdate mn i v) (maxUpdate mx i v)
      obtain ⟨hne, horig, hlev, hmono⟩ := minUpdate_props mn i v
      have heq : exLoop (some v :: rest) i mn mx
          = exLoop rest (i + 1) (minUpdate mn i v) (maxUpdate mx i v) := rfl
      rw [heq]
      refine ⟨fun _ => IH.1 hne, fun _ => IH.1 hne, ?_⟩
      intro j w h
      obtain ⟨ho, hb, hm⟩ := IH.2.2 j w h
      obtain ⟨q, hq⟩ := Option.ne_none_iff_exists'.mp hne
      refine ⟨?_, ?_, ?_⟩
      · rcases ho with h1 | ⟨k, hk, hj⟩
        · rcases horig (j, w) h1 with h2 | h2
          · refine Or.inr ⟨0, ?_, ?_⟩
            · have hj : j = i := congrArg Prod.fst h2
              have hw : w = v := congrArg Prod.snd h2
              simp [hw]
            · have : j = i := congrArg Prod.fst h2
              omega
          · exact Or.inl h2
        · exact Or.inr ⟨k + 1, by simpa using hk, by omega⟩
      · intro x hx
        rw [List.mem_cons] at hx
        rcases hx with h1 | h1
        · have hxv : x = v := by
            injection h1
          have h2 : w ≤ q.2 := hm q hq
          have h3 : q.2 ≤ v := hlev q hq
          rw [hxv]
          linarith
        · exact hb x h1
      · intro p hp
        have h2 : w ≤ q.2 := hm q hq
        have h3 : q.2 ≤ p.2 := hmono q p hq hp
        linarith

/-- Loop invariant of `exLoop`, maximum component (mirror image of
`exLoop_min_spec`). -/
theorem exLoop_max_spec (a : List (Option ℝ)) :
    ∀ (i : ℕ) (mn mx : Option (ℕ × ℝ)),
    (mx ≠ none → (exLoop a i mn mx).2 ≠ none) ∧
    ((∃ x : ℝ, some x ∈ a) → (exLoop a i mn mx).2 ≠ none) ∧
    (∀ j w, (exLoop a i mn mx).2 = some (j, w) →
      (mx = some (j, w) ∨ ∃ k, a.get? k = some (some w) ∧ j = i + k) ∧
      (∀ x : ℝ, some x ∈ a → x ≤ w) ∧
      (∀ p : ℕ × ℝ, mx = some p → p.2 ≤ w)) := by
  induction a with
  | nil =>
    intro i mn mx
    refine ⟨fun h => by simpa [exLoop] using h, ?_, ?_⟩
    · rintro ⟨x, hx⟩
      simp at hx
    · intro j w h
      simp [exLoop] at h
      refine ⟨Or.inl h, ?_, ?_⟩
      · intro x hx
        simp at hx
      · intro p hp
        rw [h] at hp
        cases hp
        exact le_refl _
  | cons hd rest ih =>
    intro i mn mx
    cases hd with
    | none =>
      have IH := ih (i + 1) mn mx
      have heq : exLoop (none :: rest) i mn mx = exLoop rest (i + 1) mn mx := rfl
      rw [heq]
      refine ⟨IH.1, ?_, ?_⟩
      · rintro ⟨x, hx⟩
        rw [List.mem_cons] at hx
        rcases hx with h1 | h1
        · exact absurd h1 (by simp)
        · exact IH.2.1 ⟨x, h1⟩
      · intro j w h
        obtain ⟨ho, hb, hm⟩ := IH.2.2 j w h
        refine ⟨?_, ?_, hm⟩
        · rcases ho with h1 | ⟨k, hk, hj⟩
          · exact Or.inl h1
          · exact Or.inr ⟨k + 1, by simpa using hk, by omega⟩
        · intro x hx
          rw [List.mem_cons] at hx
          rcases hx with h1 | h1
          · exact absurd h1 (by simp)
          · exact hb x h1
    | some v =>
      have IH := ih (i + 1) (minUpdate mn i v) (maxUpdate mx i v)
      obtain ⟨hne, horig, hgev, hmono⟩ := maxUpdate_props mx i v
      have heq : exLoop (some v :: rest) i mn mx
          = exLoop rest (i + 1) (minUpdate mn i v) (maxUpdate mx i v) := rfl
      rw [heq]
      refine ⟨fun _ => IH.1 hne, fun _ => IH.1 hne, ?_⟩
      intro j w h
      obtain ⟨ho, hb, hm⟩ := IH.2.2 j w h
      obtain ⟨q, hq⟩ := Option.ne_none_iff_exists'.mp hne
      refine ⟨?_, ?_, ?_⟩
      · rcases ho with h1 | ⟨k, hk, hj⟩
        · rcases horig (j, w) h1 with h2 | h2
          · refine Or.inr ⟨0, ?_, ?_⟩
            · have hw : w = v := congrArg Prod.snd h2
              simp [hw]
            · have : j = i := congrArg Prod.fst h2
              omega
          · exact Or.inl h2
        · exact Or.inr ⟨k + 1, by simpa using hk, by omega⟩
      · intro x hx
        rw [List.mem_cons] at hx
        rcases hx with h1 | h1
        · have hxv : x = v := by
            injection h1
          have h2 : q.2 ≤ w := hm q hq
          have h3 : v ≤ q.2 := hgev q hq
          rw [hxv]
          linarith
        · exact hb x h1
      · intro p hp
        have h2 : q.2 ≤ w := hm q hq
        have h3 : p.2 ≤ q.2 := hmono q p hq hp
        linarith

/-- Specification of `argExtrema` on an array with at least one non-null
entry: it returns indices of array positions holding a least and a
greatest non-null value. -/
theorem argExtrema_spec (a : List (Option ℝ)) (x₀ : ℝ) (hx₀ : some x₀ ∈ a) :
    ∃ r l vr vl,
      argExtrema a = (some r, some l) ∧
      a.get? r = some (some vr) ∧ a.get? l = some (some vl) ∧
      (∀ x : ℝ, some x ∈ a → vr ≤ x ∧ x ≤ vl) := by
  have hmin := exLoop_min_spec a 0 none none
  have hmax := exLoop_max_spec a 0 none none
  have h1 : (exLoop a 0 none none).1 ≠ none := hmin.2.1 ⟨x₀, hx₀⟩
  have h2 : (exLoop a 0 none none).2 ≠ none := hmax.2.1 ⟨x₀, hx₀⟩
  obtain ⟨⟨r, vr⟩, hr⟩ := Option.ne_none_iff_exists'.mp h1
  obtain ⟨⟨l, vl⟩, hl⟩ := Option.ne_none_iff_exists'.mp h2
  obtain ⟨hro, hrb, _⟩ := hmin.2.2 r vr hr
  obtain ⟨hlo, hlb, _⟩ := hmax.2.2 l vl hl
  have hrget : a.get? r = some (some vr) := by
    rcases hro with h | ⟨k, hk, hjk⟩
    · cases h
    · rw [show r = k by omega]
      exact hk
  have hlget : a.get? l = some (some vl) := by
    rcases hlo with h | ⟨k, hk, hjk⟩
    · cases h
    · rw [show l = k by omega]
      exact hk
  refine ⟨r, l, vr, vl, ?_, hrget, hlget, fun x hx => ⟨hrb x hx, hlb x hx⟩⟩
  rw [argExtrema, hr, hl]
  simp

/-- Source `equalAmpPan(normDist) = 1 - normDist`: linear
(equal-amplitude) pan law. -/
noncomputable def equalAmpPan (normDist : ℝ) : ℝ := 1 - normDist

/-- Source `equalPowPan(normDist) = Math.cos(normDist * Math.PI/2)`:
equal-power pan law. -/
noncomputable def equalPowPan (normDist : ℝ) : ℝ :=
  Real.cos (normDist * Real.pi / 2)

/-- JavaScript indexing `a[idx]` with a possibly-null index into the
relative-angle array.  `a[null]` is `undefined` and arithmetic on it is
NaN in JavaScript; that degenerate case (an array with no spatial
channel) is modelled by a junk value and is reached by no claim. -/
noncomputable def idxVal (a : List (Option ℝ)) : Option ℕ → ℝ
  | none => 0
  | some j => (a.getD j none).getD 0

/-- The body of `gainsFromPan` downstream of the relative-angle array
`spkThetaRel`: pick the bracketing pair with `argExtrema`, compute the
pair span `spkDist`, and map every channel to its gain.  A `null` entry
`t` coerces to 0 in JavaScript arithmetic (modelled by `t.getD 0`), but
a `null` channel never equals `lSpk` or `rSpk`, so it always lands in
the final `return 0.0` branch. -/
noncomputable def gainsFromRel (spkThetaRel : List (Option ℝ)) : List ℝ :=
  let rSpk := (argExtrema spkThetaRel).1
  let lSpk := (argExtrema spkThetaRel).2
  let spkDist := mod (idxVal spkThetaRel rSpk - idxVal spkThetaRel lSpk) 360
  spkThetaRel.mapIdx (fun i t =>
    if some i = lSpk then equalPowPan ((360 - t.getD 0) / spkDist)
    else if some i = rSpk then equalPowPan (t.getD 0 / spkDist)
    else 0)

/-- Source `gainsFromPan(theta, spkTheta)`: rotate all the speakers to
be relative to the given direction, with all angles wrapped to
`[0, 360)` (`null` stays `null`), then apply the pair law. -/
noncomputable def gainsFromPan (theta : ℝ) (spkTheta : List (Option ℝ)) :
    List ℝ :=
  gainsFromRel (spkTheta.map (Option.map (fun t => mod (t - theta) 360)))

theorem getD_mapIdx_of_get? (f : ℕ → Option ℝ → ℝ) (a : List (Option ℝ))
    (i : ℕ) (t : Option ℝ) (h : a.get? i = some t) :
    (a.mapIdx f).getD i 0 = f i t := by
  obtain ⟨hlt, hget⟩ := List.get?_eq_some.mp h
  have h' : i < (a.mapIdx f).length := by
    rw [List.length_mapIdx]
    exact hlt
  rw [List.getD_eq_getElem _ _ h']
  have hmap := List.get_mapIdx a f i hlt h'
  rw [← hget]
  simp only [List.get_eq_getElem] at hmap
  exact hmap

/-- Central property of the pan computation: on a relative-angle array
whose non-null values lie in `[0, 360)` and are pairwise distinct, with
at least two non-null entries, the extrema pair exists and is a pair of
distinct indices holding the least and greatest relative angle, the two
selected gains have squares summing to exactly 1, and every other
channel (spatial or null) gets exactly 0. -/
theorem gainsFromRel_pair (a : List (Option ℝ))
    (hb : ∀ x : ℝ, some x ∈ a → 0 ≤ x ∧ x < 360)
    (hdist : ∀ (i j : ℕ) (x y : ℝ), a.get? i = some (some x) →
      a.get? j = some (some y) → i ≠ j → x ≠ y)
    (p q : ℕ) (xp xq : ℝ) (hp : a.get? p = some (some xp))
    (hq : a.get? q = some (some xq)) (hpq : p ≠ q) :
    ∃ r l vr vl,
      argExtrema a = (some r, some l) ∧ r ≠ l ∧
      a.get? r = some (some vr) ∧ a.get? l = some (some vl) ∧
      (∀ x : ℝ, some x ∈ a → vr ≤ x ∧ x ≤ vl) ∧
      (gainsFromRel a).getD r 0 ^ 2 + (gainsFromRel a).getD l 0 ^ 2 = 1 ∧
      (∀ i : ℕ, i ≠ r → i ≠ l → (gainsFromRel a).getD i 0 = 0) := by
  have hpmem : some xp ∈ a := List.get?_mem hp
  have hqmem : some xq ∈ a := List.get?_mem hq
  obtain ⟨r, l, vr, vl, hae, hrget, hlget, hbounds⟩ := argExtrema_spec a xp hpmem
  have hrmem : some vr ∈ a := List.get?_mem hrget
  have hlmem : some vl ∈ a := List.get?_mem hlget
  have hvne : vr ≠ vl := by
    intro hEq
    have h1 : xp = vr := le_antisymm (by
      have := (hbounds xp hpmem).2
      rw [← hEq] at this
      exact this) (hbounds xp hpmem).1
    have h2 : xq = vr := le_antisymm (by
      have := (hbounds xq hqmem).2
      rw [← hEq] at this
      exact this) (hbounds xq hqmem).1
    exact hdist p q xp xq hp hq hpq (by rw [h1, h2])
  have hrl : r ≠ l := by
    intro hEq
    rw [hEq, hlget] at hrget
    have hvv : vl = vr := by
      injection (Option.some.inj hrget)
    exact hvne hvv.symm
  have hvlt : vr < vl := lt_of_le_of_ne (hbounds vl hlmem).1 hvne
  have hvr0 : 0 ≤ vr := (hb vr hrmem).1
  have hvl360 : vl < 360 := (hb vl hlmem).2
  -- the span between the pair
  have hidxr : idxVal a (some r) = vr := by
    rw [idxVal, List.getD_eq_getD_get?, hrget]
    rfl
  have hidxl : idxVal a (some l) = vl := by
    rw [idxVal, List.getD_eq_getD_get?, hlget]
    rfl
  have hspan : mod (vr - vl) 360 = vr - vl + 360 :=
    mod_of_neg (by norm_num) (by linarith) (by linarith)
  have hspos : 0 < vr - vl + 360 := by linarith
  have hsne : vr - vl + 360 ≠ 0 := ne_of_gt hspos
  have hG : gainsFromRel a = a.mapIdx (fun i t =>
      if some i = some l then equalPowPan ((360 - t.getD 0) / (vr - vl + 360))
      else if some i = some r then equalPowPan (t.getD 0 / (vr - vl + 360))
      else 0) := by
    simp only [gainsFromRel, hae, hidxr, hidxl, hspan]
  have hGr : (gainsFromRel a).getD r 0
      = equalPowPan (vr / (vr - vl + 360)) := by
    rw [hG, getD_mapIdx_of_get? _ a r (some vr) hrget]
    simp [hrl]
  have hGl : (gainsFromRel a).getD l 0
      = equalPowPan ((360 - vl) / (vr - vl + 360)) := by
    rw [hG, getD_mapIdx_of_get? _ a l (some vl) hlget]
    simp
  have hsum : equalPowPan (vr / (vr - vl + 360)) ^ 2
      + equalPowPan ((360 - vl) / (vr - vl + 360)) ^ 2 = 1 := by
    have hxy : (360 - vl) / (vr - vl + 360) = 1 - vr / (vr - vl + 360) := by
      field_simp
      ring
    rw [hxy, equalPowPan, equalPowPan]
    have harg : (1 - vr / (vr - vl + 360)) * Real.pi / 2
        = Real.pi / 2 - vr / (vr - vl + 360) * Real.pi / 2 := by
      ring
    rw [harg, Real.cos_pi_div_two_sub]
    exact Real.cos_sq_add_sin_sq _
  refine ⟨r, l, vr, vl, hae, hrl, hrget, hlget, hbounds, ?_, ?_⟩
  · rw [hGr, hGl]
    exact hsum
  · intro i hir hil
    rcases lt_or_le i a.length with hlt | hge
    · obtain ⟨t, ht⟩ : ∃ t, a.get? i = some t := by
        rw [List.get?_eq_get hlt]
        exact ⟨_, rfl⟩
      rw [hG, getD_mapIdx_of_get? _ a i t ht]
      simp [hir, hil]
    · rw [hG]
      apply List.getD_eq_default
      rw [List.length_mapIdx]
      exact hge

/-- Mathematical model of `Math.atan2(y, x)`: the argument of the
complex number `x + y i`, valued in `(-π, π]`, with `atan2(0, 0) = 0`
exactly as JavaScript defines it. -/
noncomputable def atan2 (y x : ℝ) : ℝ := Complex.arg ⟨x, y⟩

/-- Source `panFromCoords(listenerCoords, voiceCoords)`: the azimuth of
the voice as seen from the listener — `Math.atan2(dy, dx)` converted
from radians to degrees (0° along +x, clockwise-positive because y
grows downward). -/
noncomputable def panFromCoords (listenerCoords voiceCoords : Coords) : ℝ :=
  atan2 (voiceCoords.y - listenerCoords.y) (voiceCoords.x - listenerCoords.x)
    / Real.pi * 180

/-- The local `dist` of `gainFromCoords`: Euclidean distance between
listener and voice. -/
noncomputable def dist (listenerCoords voiceCoords : Coords) : ℝ :=
  Real.sqrt ((voiceCoords.x - listenerCoords.x) ^ 2 +
    (voiceCoords.y - listenerCoords.y) ^ 2)

/-- Source `gainFromCoords(listenerCoords, voiceCoords, listenRadius)`:
attenuation `1` strictly inside the listen radius and
`listenRadius / dist` otherwise.  The source performs no validation of
the radius. -/
noncomputable def gainFromCoords (listenerCoords voiceCoords : Coords)
    (listenRadius : ℝ) : ℝ :=
  if dist listenerCoords voiceCoords < listenRadius then 1
  else listenRadius / dist listenerCoords voiceCoords

/-- Source `spkLayoutFromNChans(nChans)`: the assumed standard layout
for a channel count, in channel order; `null` marks the non-spatial LFE
channel.  Only 6 (5.1) and 2 (stereo) are defined; anything else
throws. -/
def spkLayoutFromNChans (nChans : ℕ) : Except String (List (Option ℝ)) :=
  if nChans = 6 then
    .ok [some (-90 - 30), some (-90 + 30), some (-90), none,
         some (-90 - 115), some (-90 + 115)]
  else if nChans = 2 then
    .ok [some (-90 - 30), some (-90 + 30)]
  else
    .error "Only 5.1 and stereo configurations currently supported"

/-- Observable resource and graph actions of `createPanner`, recorded
in program order. -/
inductive PannerEvent
  | mergerAlloc (numberOfInputs : ℕ)
  | mergerConnect
  | fanoutAlloc
  | channelGainAlloc (i : ℕ)
  | channelGainConnect (i : ℕ)
  | fanoutConnect (i : ℕ)
  | initialSetPan (p : ℝ)

/-- The state of a successfully constructed panner: the channel count
used for panning, the resolved layout, and the per-channel gain
targets last pushed by `setPan`. -/
structure Panner where
  nChans : ℕ
  spkTheta : List (Option ℝ)
  channelGains : List ℝ

/-- Source `createPanner(ctx, destNode)`, as the trace of graph actions
it performs paired with its result.  The source allocates and connects
the merger, the fanout, and one gain node per capped channel *before*
calling `spkLayoutFromNChans`, so the throw for an unsupported channel
count escapes only after those allocations; on success the panner is
initialized with `setPan(-90)`. -/
noncomputable def createPanner (destChannelCount : ℕ) :
    List PannerEvent × Except String Panner :=
  let nChans := min destChannelCount 6
  let ev := [PannerEvent.mergerAlloc destChannelCount,
             PannerEvent.mergerConnect, PannerEvent.fanoutAlloc]
    ++ (List.range nChans).bind
        (fun i => [PannerEvent.channelGainAlloc i,
                   PannerEvent.channelGainConnect i,
                   PannerEvent.fanoutConnect i])
  match spkLayoutFromNChans nChans with
  | .error e => (ev, .error e)
  | .ok spkTheta =>
      (ev ++ [PannerEvent.initialSetPan (-90)],
       .ok { nChans := nChans, spkTheta := spkTheta,
             channelGains := gainsFromPan (-90) spkTheta })

/-- The `set pan(p)` accessor of the panner object: recompute every
channel gain from `gainsFromPan`. -/
noncomputable def Panner.setPan (pn : Panner) (p : ℝ) : Panner :=
  { pn with channelGains := gainsFromPan p pn.spkTheta }

/-- Observable state of a voice created by `createVoice`: its stored
fields, the pan and master gain last pushed into its panner, whether
the media element is playing, and the deadlines of the `setTimeout`
callbacks scheduled by `pause()` and not yet fired (the source keeps no
handle to them, so none is ever cancelled). -/
structure VoiceState where
  volume : ℝ
  listenerCoords : Coords
  voiceCoords : Coords
  listenRadius : ℝ
  pannerPan : ℝ
  pannerGain : ℝ
  mediaPlaying : Bool
  pendingPauses : List ℕ

/-- Source `_updatePanner()`: push the recomputed azimuth and the
attenuated volume into the panner. -/
noncomputable def updatePanner (s : VoiceState) : VoiceState :=
  { s with
    pannerPan := panFromCoords s.listenerCoords s.voiceCoords,
    pannerGain := s.volume *
      gainFromCoords s.listenerCoords s.voiceCoords s.listenRadius }

/-- Source setter `listenerCoords`: store, then `_updatePanner()`. -/
noncomputable def setListenerCoords (xy : Coords) (s : VoiceState) :
    VoiceState :=
  updatePanner { s with listenerCoords := xy }

/-- Source setter `voiceCoords`: store, then `_updatePanner()`. -/
noncomputable def setVoiceCoords (xy : Coords) (s : VoiceState) :
    VoiceState :=
  updatePanner { s with voiceCoords := xy }

/-- Source setter `volume`: store, then `_updatePanner()`. -/
noncomputable def setVolume (v : ℝ) (s : VoiceState) : VoiceState :=
  updatePanner { s with volume := v }

/-- Source `pause()`: zero the stored volume (fading the output down
through `_updatePanner`) and schedule `mediaElement.pause()` for 5000 ms
later.  The timeout handle is discarded, so the callback cannot be
cancelled. -/
noncomputable def pause (now : ℕ) (s : VoiceState) : VoiceState :=
  let s1 := updatePanner { s with volume := 0 }
  { s1 with pendingPauses := s1.pendingPauses ++ [now + 5000] }

/-- Source `play()`: `() => mediaElement.play()` — the only effect is
the media play command. -/
def play (s : VoiceState) : VoiceState := { s with mediaPlaying := true }

/-- The event loop firing the earliest scheduled timeout of `pause()`
once its deadline passes: the callback `() => mediaElement.pause()`
stops the media. -/
def firePendingPause (s : VoiceState) : VoiceState :=
  match s.pendingPauses with
  | [] => s
  | _ :: rest => { s with mediaPlaying := false, pendingPauses := rest }

/-- Source `createVoice(url, listenerCoords, voiceCoords, listenRadius)`
(the opaque media url aside): fields are initialized with `_volume = 1`
and `_updatePanner()` runs once; the voice starts with no scheduled stop
and the media not yet playing (its panner was initialized by
`setPan(-90)` and a unit master gain). -/
noncomputable def createVoice (listenerCoords voiceCoords : Coords)
    (listenRadius : ℝ) : VoiceState :=
  updatePanner
    { volume := 1, listenerCoords := listenerCoords,
      voiceCoords := voiceCoords, listenRadius := listenRadius,
      pannerPan := -90, pannerGain := 1, mediaPlaying := false,
      pendingPauses := [] }

theorem dist_self (L : Coords) : dist L L = 0 := by
  rw [dist]
  simp

theorem dist_nonneg' (L S : Coords) : 0 ≤ dist L S := Real.sqrt_nonneg _

/-- C7: `panFromCoords` returns `atan2(dy, dx)` converted from radians
to degrees, and on the degenerate input with the voice exactly at the
listener it returns the deterministic fallback 0° (the value of
`atan2(0, 0)` in degrees). -/
theorem panFromCoords_atan2_deg_and_zero_fallback :
    (∀ L S : Coords, panFromCoords L S
      = atan2 (S.y - L.y) (S.x - L.x) / Real.pi * 180) ∧
    (∀ L : Coords, panFromCoords L L = 0) := by
  refine ⟨fun L S => rfl, fun L => ?_⟩
  rw [panFromCoords, atan2]
  have h : (⟨L.x - L.x, L.y - L.y⟩ : ℂ) = 0 := by
    simp [Complex.ext_iff]
  rw [h, Complex.arg_zero]
  simp

/-- C9: panning is periodic with period 360° — `gainsFromPan` returns
the same gain vector for `θ` and `θ + 360`, for every target azimuth
and every speaker layout. -/
theorem gainsFromPan_periodic (θ : ℝ) (spkTheta : List (Option ℝ)) :
    gainsFromPan θ spkTheta = gainsFromPan (θ + 360) spkTheta := by
  have hfun : Option.map (fun t : ℝ => mod (t - (θ + 360)) 360)
      = Option.map (fun t : ℝ => mod (t - θ) 360) := by
    funext o
    cases o with
    | none => rfl
    | some t =>
      simp [mod_sub_period t θ (by norm_num : (0:ℝ) < 360)]
  rw [gainsFromPan, gainsFromPan, hfun]

/-- C10: `play()` is a pure frame operation on the voice state — it
changes no stored field and no panner parameter, only issuing the media
play command; in particular the user volume zeroed by `pause()` stays 0
across a subsequent `play()`. -/
theorem play_frame_effect (s : VoiceState) (now : ℕ) :
    (play s).volume = s.volume ∧
    (play s).listenerCoords = s.listenerCoords ∧
    (play s).voiceCoords = s.voiceCoords ∧
    (play s).listenRadius = s.listenRadius ∧
    (play s).pannerPan = s.pannerPan ∧
    (play s).pannerGain = s.pannerGain ∧
    (play s).mediaPlaying = true ∧
    (play (pause now s)).volume = 0 := by
  refine ⟨rfl, rfl, rfl, rfl, rfl, rfl, rfl, ?_⟩
  simp [play, pause, updatePanner]

/-- C4: `gainFromCoords` is exactly 1 strictly inside the radius (in
particular at distance 0 for a positive radius), `radius / dist`
otherwise, and for a positive radius it is strictly decreasing in the
distance beyond the radius, always strictly positive (hence never
negative and never 0). -/
theorem gainFromCoords_attenuation :
    (∀ (L S : Coords) (r : ℝ), dist L S < r → gainFromCoords L S r = 1) ∧
    (∀ (L S : Coords) (r : ℝ), ¬ dist L S < r →
      gainFromCoords L S r = r / dist L S) ∧
    (∀ (L : Coords) (r : ℝ), 0 < r → gainFromCoords L L r = 1) ∧
    (∀ (L S₁ S₂ : Coords) (r : ℝ), 0 < r → r ≤ dist L S₁ →
      dist L S₁ < dist L S₂ →
      gainFromCoords L S₂ r < gainFromCoords L S₁ r) ∧
    (∀ (L S : Coords) (r : ℝ), 0 < r → 0 < gainFromCoords L S r) := by
  refine ⟨?_, ?_, ?_, ?_, ?_⟩
  · intro L S r h
    rw [gainFromCoords, if_pos h]
  · intro L S r h
    rw [gainFromCoords, if_neg h]
  · intro L r hr
    rw [gainFromCoords, if_pos (by rw [dist_self]; exact hr)]
  · intro L S₁ S₂ r hr h1 h2
    have hd1 : 0 < dist L S₁ := lt_of_lt_of_le hr h1
    have hn1 : ¬ dist L S₁ < r := not_lt.mpr h1
    have hn2 : ¬ dist L S₂ < r := not_lt.mpr (le_trans h1 h2.le)
    rw [gainFromCoords, gainFromCoords, if_neg hn2, if_neg hn1]
    exact div_lt_div_of_pos_left hr hd1 h2
  · intro L S r hr
    rw [gainFromCoords]
    split
    · norm_num
    · rename_i h
      have hd : 0 < dist L S := lt_of_lt_of_le hr (not_lt.mp h)
      exact div_pos hr hd

/-- Witness for C4 with the listener at the origin: the source at
distance 5 is strictly quieter than at distance 3 under radius 3, the
coincident source has gain exactly 1, and all gains are positive. -/
theorem gainFromCoords_attenuation_witness :
    gainFromCoords ⟨0, 0⟩ ⟨0, 5⟩ 3 < gainFromCoords ⟨0, 0⟩ ⟨0, 3⟩ 3 ∧
    gainFromCoords ⟨0, 0⟩ ⟨0, 0⟩ 3 = 1 ∧
    0 < gainFromCoords ⟨0, 0⟩ ⟨0, 5⟩ 3 := by
  have hd3 : dist ⟨0, 0⟩ ⟨0, 3⟩ = 3 := by
    rw [dist]
    norm_num
    rw [show (9:ℝ) = 3 ^ 2 by norm_num, Real.sqrt_sq (by norm_num)]
  have hd5 : dist ⟨0, 0⟩ ⟨0, 5⟩ = 5 := by
    rw [dist]
    norm_num
    rw [show (25:ℝ) = 5 ^ 2 by norm_num, Real.sqrt_sq (by norm_num)]
  refine ⟨?_, ?_, ?_⟩
  · exact gainFromCoords_attenuation.2.2.2.1 ⟨0, 0⟩ ⟨0, 3⟩ ⟨0, 5⟩ 3
      (by norm_num) (by rw [hd3]) (by rw [hd3, hd5]; norm_num)
  · exact gainFromCoords_attenuation.2.2.1 ⟨0, 0⟩ 3 (by norm_num)
  · exact gainFromCoords_attenuation.2.2.2.2 ⟨0, 0⟩ ⟨0, 5⟩ 3 (by norm_num)

/-- C3 counterexample: the layout entries are raw angles, not values
canonicalized to `[0, 360)` — in particular the count-6 Left-surround
entry (index 4) is `-205`, which is negative and is not `155`. -/
theorem spkLayout_entries_not_canonicalized :
    spkLayoutFromNChans 6 = .ok [some (-120), some (-60), some (-90),
      none, some (-205), some 25] ∧
    ((-205 : ℝ) < 0) ∧ ((-205 : ℝ) ≠ 155) := by
  refine ⟨?_, by norm_num, by norm_num⟩
  simp only [spkLayoutFromNChans, if_pos rfl]
  norm_num

/-- C3 amended: the resolver returns raw (mostly negative) angles —
`[-120, -60]` for stereo and `[-120, -60, -90, null, -205, 25]` for
5.1; canonicalization into `[0, 360)` happens only later, inside
`gainsFromPan` via `mod`, under which Left-surround `-205` becomes
`155` and Right-surround `25` stays `25`. -/
theorem spkLayout_raw_angles_mod_canonicalizes :
    spkLayoutFromNChans 2 = .ok [some (-120), some (-60)] ∧
    spkLayoutFromNChans 6 = .ok [some (-120), some (-60), some (-90),
      none, some (-205), some 25] ∧
    mod (-205) 360 = 155 ∧ mod 25 360 = 25 ∧
    mod (-120) 360 = 240 ∧ mod (-60) 360 = 300 ∧ mod (-90) 360 = 270 := by
  refine ⟨?_, ?_, ?_, ?_, ?_, ?_, ?_⟩
  · simp only [spkLayoutFromNChans]
    norm_num
  · simp only [spkLayoutFromNChans, if_pos rfl]
    norm_num
  · rw [mod_of_neg (by norm_num) (by norm_num) (by norm_num)]
    norm_num
  · exact mod_eq_self (by norm_num) (by norm_num) (by norm_num)
  · rw [mod_of_neg (by norm_num) (by norm_num) (by norm_num)]
    norm_num
  · rw [mod_of_neg (by norm_num) (by norm_num) (by norm_num)]
    norm_num
  · rw [mod_of_neg (by norm_num) (by norm_num) (by norm_num)]
    norm_num

/-- C5 counterexample: a call with a non-positive listen radius raises
no error at all — `gainFromCoords` is a total function with no guard
and silently returns `radius / dist`, here the negative gain `-1`. -/
theorem gainFromCoords_no_guard_counterexample :
    gainFromCoords ⟨0, 0⟩ ⟨1, 0⟩ (-1) = -1 ∧ ((-1 : ℝ) < 0) := by
  have hd : dist ⟨0, 0⟩ ⟨1, 0⟩ = 1 := by
    rw [dist]
    norm_num
  refine ⟨?_, by norm_num⟩
  rw [gainFromCoords, hd, if_neg (by norm_num)]
  norm_num

/-- C5 amended: the source validates nothing — for any non-positive
listen radius, `gainFromCoords` silently returns `radius / dist`
(a negative "attenuation" whenever the radius is negative and the
distance positive) instead of raising an `InvalidGeometry` error. -/
theorem gainFromCoords_nonpositive_radius_garbage (L S : Coords) (r : ℝ)
    (hr : r ≤ 0) :
    gainFromCoords L S r = r / dist L S ∧
    (r < 0 → 0 < dist L S → gainFromCoords L S r < 0) := by
  have hnot : ¬ dist L S < r := not_lt.mpr (le_trans hr (dist_nonneg' L S))
  constructor
  · rw [gainFromCoords, if_neg hnot]
  · intro hrneg hdpos
    rw [gainFromCoords, if_neg hnot]
    exact div_neg_of_neg_of_pos hrneg hdpos

/-- Witness for the amended C5 at radius -1, distance 1. -/
theorem gainFromCoords_nonpositive_radius_garbage_witness :
    gainFromCoords ⟨0, 0⟩ ⟨2, 0⟩ (-1) = -1 / dist ⟨0, 0⟩ ⟨2, 0⟩ ∧
    gainFromCoords ⟨0, 0⟩ ⟨2, 0⟩ (-1) < 0 := by
  have h := gainFromCoords_nonpositive_radius_garbage ⟨0, 0⟩ ⟨2, 0⟩ (-1)
    (by norm_num)
  have hd : dist ⟨0, 0⟩ ⟨2, 0⟩ = 2 := by
    rw [dist]
    norm_num
    rw [show (4:ℝ) = 2 ^ 2 by norm_num, Real.sqrt_sq (by norm_num)]
  exact ⟨h.1, h.2 (by norm_num) (by rw [hd]; norm_num)⟩

/-- C2 counterexample: on a freshly created playing voice, `pause()`
immediately followed by `play()` leaves the stored user volume at 0
(not restored to the pre-pause 1) and the scheduled stop still pending;
when the 5000 ms timer fires, the media is paused anyway — the stop
executes. -/
theorem pause_then_play_counterexample :
    (play (createVoice ⟨0, 0⟩ ⟨1, 0⟩ 5)).volume = 1 ∧
    (play (pause 0 (play (createVoice ⟨0, 0⟩ ⟨1, 0⟩ 5)))).volume = 0 ∧
    (play (pause 0 (play (createVoice ⟨0, 0⟩ ⟨1, 0⟩ 5)))).pendingPauses
      = [5000] ∧
    (firePendingPause
       (play (pause 0 (play (createVoice ⟨0, 0⟩ ⟨1, 0⟩ 5))))).mediaPlaying
      = false := by
  refine ⟨?_, ?_, ?_, ?_⟩ <;>
    simp [play, pause, updatePanner, createVoice, firePendingPause]

/-- C2 amended: `pause()` then `play()` within the grace period does not
restore the user volume — it stays 0, because `play()` only issues the
media play command — and does not cancel the scheduled stop: the
deadline stays pending and, once it fires, pauses the media despite the
intervening `play()`. -/
theorem pause_then_play_keeps_stale_stop (s : VoiceState) (now : ℕ) :
    (play (pause now s)).volume = 0 ∧
    (play (pause now s)).pendingPauses = s.pendingPauses ++ [now + 5000] ∧
    (s.pendingPauses = [] →
      (firePendingPause (play (pause now s))).mediaPlaying = false) := by
  refine ⟨by simp [play, pause, updatePanner],
    by simp [play, pause, updatePanner], ?_⟩
  intro h
  simp [play, pause, updatePanner, firePendingPause, h]

/-- Witness for the amended C2 on a concrete voice paused at t = 3 ms. -/
theorem pause_then_play_keeps_stale_stop_witness :
    (play (pause 3 (createVoice ⟨0, 0⟩ ⟨2, 0⟩ 1))).volume = 0 ∧
    (play (pause 3 (createVoice ⟨0, 0⟩ ⟨2, 0⟩ 1))).pendingPauses
      = [3 + 5000] ∧
    (firePendingPause
       (play (pause 3 (createVoice ⟨0, 0⟩ ⟨2, 0⟩ 1)))).mediaPlaying
      = false := by
  have h := pause_then_play_keeps_stale_stop (createVoice ⟨0, 0⟩ ⟨2, 0⟩ 1) 3
  have hpp : (createVoice ⟨0, 0⟩ ⟨2, 0⟩ 1).pendingPauses = [] := by
    simp [createVoice, updatePanner]
  refine ⟨h.1, ?_, h.2.2 hpp⟩
  rw [h.2.1, hpp]
  rfl

/-- C6 counterexample: for destination channel count 3 (capped count 3,
which has no layout) `createPanner` does throw the unsupported-layout
error, but its trace already contains the merger allocation and a
per-channel gain-node allocation — the error is not raised before graph
construction. -/
theorem createPanner_allocations_precede_error :
    (∃ e, (createPanner 3).2 = Except.error e) ∧
    PannerEvent.mergerAlloc 3 ∈ (createPanner 3).1 ∧
    PannerEvent.channelGainAlloc 0 ∈ (createPanner 3).1 := by
  have hmin : min 3 6 = 3 := by norm_num
  have hlay : spkLayoutFromNChans 3
      = Except.error "Only 5.1 and stereo configurations currently supported" := by
    simp [spkLayoutFromNChans]
  refine ⟨⟨"Only 5.1 and stereo configurations currently supported", ?_⟩, ?_, ?_⟩ <;>
    simp [createPanner, hmin, hlay, List.range_succ]

/-- C6 amended: for every destination channel count whose capped value
`min(count, 6)` is neither 2 nor 6, `createPanner` fails with the
unsupported-layout error, but only after graph construction has begun:
the merger and one gain node per capped channel are allocated before
the error is raised. -/
theorem createPanner_unsupported_error_after_allocation (c : ℕ)
    (h2 : min c 6 ≠ 2) (h6 : min c 6 ≠ 6) :
    (createPanner c).2
      = Except.error "Only 5.1 and stereo configurations currently supported" ∧
    PannerEvent.mergerAlloc c ∈ (createPanner c).1 ∧
    (∀ i, i < min c 6 → PannerEvent.channelGainAlloc i ∈ (createPanner c).1) := by
  have hlay : spkLayoutFromNChans (min c 6)
      = Except.error "Only 5.1 and stereo configurations currently supported" := by
    rw [spkLayoutFromNChans, if_neg h6, if_neg h2]
  refine ⟨?_, ?_, ?_⟩
  · simp [createPanner, hlay]
  · simp [createPanner, hlay]
  · intro i hi
    simp only [createPanner, hlay]
    simp only [List.mem_append, List.mem_cons, List.mem_bind]
    exact Or.inr ⟨i, List.mem_range.mpr hi, Or.inl rfl⟩

/-- Witness for the amended C6 at destination channel count 3. -/
theorem createPanner_unsupported_error_after_allocation_witness :
    (createPanner 3).2
      = Except.error "Only 5.1 and stereo configurations currently supported" ∧
    PannerEvent.mergerAlloc 3 ∈ (createPanner 3).1 ∧
    PannerEvent.channelGainAlloc 2 ∈ (createPanner 3).1 := by
  have h := createPanner_unsupported_error_after_allocation 3
    (by omega) (by omega)
  exact ⟨h.1, h.2.1, h.2.2 2 (by omega)⟩

theorem rel240 : mod (-90 - 30 : ℝ) 360 = 240 := by
  rw [show (-90 - 30 : ℝ) = -120 by norm_num,
    mod_of_neg (by norm_num) (by norm_num) (by norm_num)]
  norm_num

theorem rel300 : mod (-90 + 30 : ℝ) 360 = 300 := by
  rw [show (-90 + 30 : ℝ) = -60 by norm_num,
    mod_of_neg (by norm_num) (by norm_num) (by norm_num)]
  norm_num

/-- The rotated relative angles of the stereo layout at target azimuth
0 are `[240, 300]`. -/
theorem relList_stereo_at_zero :
    ([some (-90 - 30), some (-90 + 30)] : List (Option ℝ)).map
      (Option.map fun t => mod (t - 0) 360) = [some 240, some 300] := by
  simp [rel240, rel300]

/-- On relative angles `[240, 300]`, the minimum (right speaker) is
index 0 and the maximum (left speaker) is index 1. -/
theorem argExtrema_stereo_240_300 :
    argExtrema [some (240:ℝ), some 300] = (some 0, some 1) := by
  rw [argExtrema]
  norm_num [exLoop, minUpdate, maxUpdate]

theorem idx0_stereo : idxVal [some (240:ℝ), some 300] (some 0) = 240 := by
  simp [idxVal]

theorem idx1_stereo : idxVal [some (240:ℝ), some 300] (some 1) = 300 := by
  simp [idxVal]

theorem span_stereo : mod ((240:ℝ) - 300) 360 = 300 := by
  rw [show ((240:ℝ) - 300) = -60 by norm_num,
    mod_of_neg (by norm_num) (by norm_num) (by norm_num)]
  norm_num

theorem gainsFromRel_stereo_body :
    gainsFromRel [some (240:ℝ), some 300]
      = List.mapIdx (fun i t =>
          if some i = some 1 then equalPowPan ((360 - t.getD 0) / 300)
          else if some i = some 0 then equalPowPan (t.getD 0 / 300)
          else 0) [some (240:ℝ), some 300] := by
  simp only [gainsFromRel, argExtrema_stereo_240_300, idx0_stereo,
    idx1_stereo, span_stereo]

/-- Channel 0 (the right speaker, relative angle 240) gets gain
`cos(240/300 · π/2)` in the spec's end-to-end stereo scenario. -/
theorem scenario_gain0 :
    (gainsFromPan 0 [some (-90 - 30), some (-90 + 30)]).getD 0 0
      = Real.cos (240 / 300 * Real.pi / 2) := by
  rw [gainsFromPan, relList_stereo_at_zero, gainsFromRel_stereo_body,
    getD_mapIdx_of_get? _ _ 0 (some 240) (by simp)]
  norm_num [equalPowPan]

/-- Channel 1 (the left speaker, relative angle 300) gets gain
`cos((360-300)/300 · π/2)` in the spec's end-to-end stereo scenario. -/
theorem scenario_gain1 :
    (gainsFromPan 0 [some (-90 - 30), some (-90 + 30)]).getD 1 0
      = Real.cos ((360 - 300) / 300 * Real.pi / 2) := by
  rw [gainsFromPan, relList_stereo_at_zero, gainsFromRel_stereo_body,
    getD_mapIdx_of_get? _ _ 1 (some 300) (by simp)]
  norm_num [equalPowPan]

/-- C8 counterexample: in the spec's scenario (azimuth 0, stereo layout)
the gain vector computed by the code is NOT the spec's hand-computed
`[cos((360-240)/300·π/2), cos(240/300·π/2)]` — the spec's formula uses
the wrong speaker's relative angle in both entries. -/
theorem scenario_gains_counterexample :
    gainsFromPan 0 [some (-90 - 30), some (-90 + 30)]
      ≠ [Real.cos ((360 - 240) / 300 * Real.pi / 2),
         Real.cos (240 / 300 * Real.pi / 2)] := by
  intro h
  have h0 : (gainsFromPan 0 [some (-90 - 30), some (-90 + 30)]).getD 0 0
      = Real.cos ((360 - 240) / 300 * Real.pi / 2) := by
    rw [h]
    rfl
  rw [scenario_gain0] at h0
  have hlt : Real.cos (240 / 300 * Real.pi / 2)
      < Real.cos ((360 - 240) / 300 * Real.pi / 2) := by
    apply Real.cos_lt_cos_of_nonneg_of_le_pi
    · positivity
    · nlinarith [Real.pi_pos]
    · nlinarith [Real.pi_pos]
  rw [h0] at hlt
  exact lt_irrefl _ hlt

/-- C8 amended: the end-to-end scenario as the code computes it —
azimuth 0, stereo layout `[-120, -60]`, rotated relative angles
`[240, 300]`, right speaker index 0 and left speaker index 1, span
`mod(240-300, 360) = 300`, and gain vector
`[cos(240/300·π/2), cos((360-300)/300·π/2)]` (≈ [0.309, 0.951]) whose
squares sum to exactly 1. -/
theorem scenario_end_to_end :
    panFromCoords ⟨0, 0⟩ ⟨1, 0⟩ = 0 ∧
    spkLayoutFromNChans 2 = .ok [some (-90 - 30), some (-90 + 30)] ∧
    ([some (-90 - 30), some (-90 + 30)] : List (Option ℝ)).map
      (Option.map fun t => mod (t - 0) 360) = [some 240, some 300] ∧
    argExtrema [some (240:ℝ), some 300] = (some 0, some 1) ∧
    mod ((240:ℝ) - 300) 360 = 300 ∧
    (gainsFromPan 0 [some (-90 - 30), some (-90 + 30)]).getD 0 0
      = Real.cos (240 / 300 * Real.pi / 2) ∧
    (gainsFromPan 0 [some (-90 - 30), some (-90 + 30)]).getD 1 0
      = Real.cos ((360 - 300) / 300 * Real.pi / 2) ∧
    Real.cos (240 / 300 * Real.pi / 2) ^ 2
      + Real.cos ((360 - 300) / 300 * Real.pi / 2) ^ 2 = 1 := by
  refine ⟨?_, by rw [spkLayoutFromNChans]; norm_num, relList_stereo_at_zero,
    argExtrema_stereo_240_300, span_stereo, scenario_gain0, scenario_gain1, ?_⟩
  · rw [panFromCoords, atan2]
    have h1 : (⟨(⟨1, 0⟩ : Coords).x - (⟨0, 0⟩ : Coords).x,
        (⟨1, 0⟩ : Coords).y - (⟨0, 0⟩ : Coords).y⟩ : ℂ) = 1 := by
      simp [Complex.ext_iff]
    rw [h1, Complex.arg_one]
    simp
  · have harg : (240:ℝ) / 300 * Real.pi / 2
        = Real.pi / 2 - (360 - 300) / 300 * Real.pi / 2 := by
      ring
    rw [harg, Real.cos_pi_div_two_sub]
    exact Real.sin_sq_add_cos_sq _

/-- Every rotated relative angle produced by the map phase of
`gainsFromPan` lies in `[0, 360)`. -/
theorem rel_bounds (θ : ℝ) (L : List (Option ℝ)) :
    ∀ x : ℝ, some x ∈ L.map (Option.map fun t => mod (t - θ) 360) →
      0 ≤ x ∧ x < 360 := by
  intro x hx
  rw [List.mem_map] at hx
  obtain ⟨o, _, hmap⟩ := hx
  cases o with
  | none => simp at hmap
  | some t =>
    simp only [Option.map_some'] at hmap
    have hxe : mod (t - θ) 360 = x := by injection hmap
    rw [← hxe]
    exact ⟨mod_nonneg _ (by norm_num), mod_lt _ (by norm_num)⟩

/-- The two rotated stereo angles are distinct for every target
azimuth. -/
theorem stereo_rel_distinct (θ : ℝ) :
    ∀ (i j : ℕ) (x y : ℝ),
      (([some (-120), some (-60)] : List (Option ℝ)).map
        (Option.map fun t => mod (t - θ) 360)).get? i = some (some x) →
      (([some (-120), some (-60)] : List (Option ℝ)).map
        (Option.map fun t => mod (t - θ) 360)).get? j = some (some y) →
      i ≠ j → x ≠ y := by
  intro i j x y hi hj hij
  have hi2 : i < 2 := by
    have := (List.get?_eq_some.mp hi).1
    simpa using this
  have hj2 : j < 2 := by
    have := (List.get?_eq_some.mp hj).1
    simpa using this
  interval_cases i <;> interval_cases j <;> simp_all <;>
    (rw [← hi, ← hj]; exact mod_sub_ne θ (by norm_num) (by norm_num))

/-- The five rotated spatial angles of the 5.1 layout are pairwise
distinct for every target azimuth. -/
theorem surround_rel_distinct (θ : ℝ) :
    ∀ (i j : ℕ) (x y : ℝ),
      (([some (-120), some (-60), some (-90), none,
          some (-205), some 25] : List (Option ℝ)).map
        (Option.map fun t => mod (t - θ) 360)).get? i = some (some x) →
      (([some (-120), some (-60), some (-90), none,
          some (-205), some 25] : List (Option ℝ)).map
        (Option.map fun t => mod (t - θ) 360)).get? j = some (some y) →
      i ≠ j → x ≠ y := by
  intro i j x y hi hj hij
  have hi6 : i < 6 := by
    have := (List.get?_eq_some.mp hi).1
    simpa using this
  have hj6 : j < 6 := by
    have := (List.get?_eq_some.mp hj).1
    simpa using this
  interval_cases i <;> interval_cases j <;> simp_all <;>
    (rw [← hi, ← hj]; exact mod_sub_ne θ (by norm_num) (by norm_num))

/-- C1: for every target azimuth and every layout returned for channel
count 2 or 6, `gainsFromPan` selects the indices of the minimum and the
maximum rotated relative angle (via `argExtrema`), those two indices
are distinct, the squares of the two gains there sum to exactly 1, and
every other entry — null channels included — is exactly 0. -/
theorem gainsFromPan_pair_law (θ : ℝ) (n : ℕ) (hn : n = 2 ∨ n = 6)
    (L : List (Option ℝ)) (hL : spkLayoutFromNChans n = .ok L) :
    ∃ r l vr vl,
      argExtrema (L.map (Option.map fun t => mod (t - θ) 360))
        = (some r, some l) ∧
      r ≠ l ∧
      (L.map (Option.map fun t => mod (t - θ) 360)).get? r
        = some (some vr) ∧
      (L.map (Option.map fun t => mod (t - θ) 360)).get? l
        = some (some vl) ∧
      (∀ x : ℝ, some x ∈ L.map (Option.map fun t => mod (t - θ) 360) →
        vr ≤ x ∧ x ≤ vl) ∧
      (gainsFromPan θ L).getD r 0 ^ 2 + (gainsFromPan θ L).getD l 0 ^ 2
        = 1 ∧
      (∀ i : ℕ, i ≠ r → i ≠ l → (gainsFromPan θ L).getD i 0 = 0) := by
  rcases hn with rfl | rfl
  · have hL2 : L = [some (-120), some (-60)] := by
      rw [spkLayoutFromNChans] at hL
      norm_num at hL
      exact hL.symm
    subst hL2
    obtain ⟨r, l, vr, vl, h1, h2, h3, h4, h5, h6, h7⟩ :=
      gainsFromRel_pair
        (([some (-120), some (-60)] : List (Option ℝ)).map
          (Option.map fun t => mod (t - θ) 360))
        (rel_bounds θ _) (stereo_rel_distinct θ) 0 1
        (mod (-120 - θ) 360) (mod (-60 - θ) 360)
        (by simp) (by simp) (by norm_num)
    exact ⟨r, l, vr, vl, h1, h2, h3, h4, h5, h6, h7⟩
  · have hL6 : L = [some (-120), some (-60), some (-90), none,
        some (-205), some 25] := by
      rw [spkLayoutFromNChans] at hL
      norm_num at hL
      exact hL.symm
    subst hL6
    obtain ⟨r, l, vr, vl, h1, h2, h3, h4, h5, h6, h7⟩ :=
      gainsFromRel_pair
        (([some (-120), some (-60), some (-90), none,
            some (-205), some 25] : List (Option ℝ)).map
          (Option.map fun t => mod (t - θ) 360))
        (rel_bounds θ _) (surround_rel_distinct θ) 0 1
        (mod (-120 - θ) 360) (mod (-60 - θ) 360)
        (by simp) (by simp) (by norm_num)
    exact ⟨r, l, vr, vl, h1, h2, h3, h4, h5, h6, h7⟩

/-- Witness for C1 at target azimuth 0 over the stereo layout. -/
theorem gainsFromPan_pair_law_witness :
    ∃ r l vr vl,
      argExtrema (([some (-90 - 30), some (-90 + 30)] :
          List (Option ℝ)).map (Option.map fun t => mod (t - 0) 360))
        = (some r, some l) ∧
      r ≠ l ∧
      (([some (-90 - 30), some (-90 + 30)] : List (Option ℝ)).map
        (Option.map fun t => mod (t - 0) 360)).get? r = some (some vr) ∧
      (([some (-90 - 30), some (-90 + 30)] : List (Option ℝ)).map
        (Option.map fun t => mod (t - 0) 360)).get? l = some (some vl) ∧
      (∀ x : ℝ, some x ∈ ([some (-90 - 30), some (-90 + 30)] :
          List (Option ℝ)).map (Option.map fun t => mod (t - 0) 360) →
        vr ≤ x ∧ x ≤ vl) ∧
      (gainsFromPan 0 [some (-90 - 30), some (-90 + 30)]).getD r 0 ^ 2
        + (gainsFromPan 0 [some (-90 - 30), some (-90 + 30)]).getD l 0 ^ 2
        = 1 ∧
      (∀ i : ℕ, i ≠ r → i ≠ l →
        (gainsFromPan 0 [some (-90 - 30), some (-90 + 30)]).getD i 0
          = 0) :=
  gainsFromPan_pair_law 0 2 (Or.inl rfl)
    [some (-90 - 30), some (-90 + 30)]
    (by rw [spkLayoutFromNChans]; norm_num)

end Galaxy
